import Mathlib

/-!
Shallow embedding of the catalog tools of the GEE community-dataset discovery
agent (source file src/gee-agent/agent.py): keyword extraction
(extract_catalog_keywords), catalog fetching with its module-level cache
(fetch_gee_catalog), catalog search (search_gee_catalog) and the webpage fetch
guard (fetch_webpage_text).

Python strings are modelled as Lean strings.  Lowercasing and the
word-character class of the regex used by the keyword extractor are modelled
on their ASCII fragment (the Python versions additionally handle non-ASCII
letters; the catalog text these functions consume is ASCII).  Network effects
are modelled by passing the outcome of the network interaction as an explicit
argument, and the module-level caches as an explicit state record.
-/

namespace GeeAgent

/-- ASCII fragment of Python str.lower applied to one character: map the
code points of A..Z to those of a..z and leave every other character alone. -/
def lowerChar (c : Char) : Char :=
  if 65 ≤ c.toNat ∧ c.toNat ≤ 90 then Char.ofNat (c.toNat + 32) else c

/-- Python str.lower over a whole string. -/
def lowerStr (s : String) : String :=
  String.mk (s.data.map lowerChar)

/-- Whether the pattern occurs at the very front of the text (the empty
pattern occurs at the front of every text). -/
def matchesFront : List Char → List Char → Bool
  | [], _ => true
  | _ :: _, [] => false
  | p :: ps, c :: cs => p == c && matchesFront ps cs

/-- Python substring containment (the binary operator in of Python, on
strings): the pattern occurs contiguously somewhere in the text. -/
def containsSub (pat : List Char) : List Char → Bool
  | [] => matchesFront pat []
  | c :: cs => matchesFront pat (c :: cs) || containsSub pat cs

/-- Lowercase ASCII letter or ASCII digit, the character class [a-z0-9]. -/
def isLowerAlnum (c : Char) : Bool :=
  decide ((97 ≤ c.toNat ∧ c.toNat ≤ 122) ∨ (48 ≤ c.toNat ∧ c.toNat ≤ 57))

/-- Uppercase ASCII letter, the character class [A-Z]. -/
def isUpperAscii (c : Char) : Bool :=
  decide (65 ≤ c.toNat ∧ c.toNat ≤ 90)

/-- ASCII digit, the character class [0-9]. -/
def isAsciiDigit (c : Char) : Bool :=
  decide (48 ≤ c.toNat ∧ c.toNat ≤ 57)

/-- ASCII letter or digit. -/
def isAsciiAlnum (c : Char) : Bool :=
  isLowerAlnum c || isUpperAscii c

/-- ASCII fragment of the regex word-character class backslash-w used by the
word-boundary assertion backslash-b: letters, digits and the underscore. -/
def isWordChar (c : Char) : Bool :=
  isAsciiAlnum c || c == '_'

/-- Accumulator-passing worker splitting a character list into its maximal
runs of characters satisfying p; the accumulator holds the current run,
reversed. -/
def runsAux (p : Char → Bool) : List Char → List Char → List (List Char)
  | [], acc => if acc.isEmpty then [] else [acc.reverse]
  | c :: cs, acc =>
    if p c then runsAux p cs (c :: acc)
    else if acc.isEmpty then runsAux p cs [] else acc.reverse :: runsAux p cs []

/-- Maximal runs of characters satisfying p, in order of occurrence. -/
def charRuns (p : Char → Bool) (s : List Char) : List (List Char) :=
  runsAux p s []

/-- Model of Python re.findall with the pattern [a-z0-9]+ bracketed by two
word-boundary assertions: because the word-boundary assertion separates
word characters (letters, digits, underscore) from the rest, a match is
exactly a maximal word-character run all of whose characters lie in
[a-z0-9].  A run containing an underscore therefore yields no match at all. -/
def findWordTokens (s : List Char) : List (List Char) :=
  (charRuns isWordChar s).filter (fun r => r.all isLowerAlnum)

/-- One dataset entry of the catalog.  The source reads each field with
item.get(key, "") (or item.get("id"), whose absent value None is
interchangeable with "" under Python truthiness as used here), so an absent
field is modelled by the empty string. -/
structure CatalogRecord where
  id : String
  title : String
  description : String
  sample_code_url : String
deriving DecidableEq

/-- The catalog: an ordered sequence of records. -/
abbrev Catalog := List CatalogRecord

/-- The text processed for one record by extract_catalog_keywords: the
space-join of the title and the description, each skipped when empty. -/
def recordText (item : CatalogRecord) : String :=
  String.intercalate " "
    ((if item.title = "" then [] else [item.title]) ++
     (if item.description = "" then [] else [item.description]))

/-- Candidate tokens of one record: the regex matches found in the lowercased
joined text, as strings. -/
def recordTokens (item : CatalogRecord) : List String :=
  (findWordTokens (lowerStr (recordText item)).data).map (fun r => String.mk r)

/-- Python str.isdigit restricted to ASCII text: non-empty and consisting of
digits only. -/
def pyIsDigit (w : String) : Bool :=
  !w.data.isEmpty && w.data.all isAsciiDigit

/-- The filter applied to each candidate token: length above 2 and not
purely numeric. -/
def keepToken (w : String) : Bool :=
  decide (2 < w.length) && !pyIsDigit w

/-- Code-point comparison of two character lists, lexicographic; this is the
order Python string comparison (and hence sorted) uses. -/
def charListLe : List Char → List Char → Bool
  | [], _ => true
  | _ :: _, [] => false
  | a :: as, b :: bs =>
    if a.toNat < b.toNat then true
    else if b.toNat < a.toNat then false
    else charListLe as bs

/-- Code-point lexicographic comparison of strings. -/
def strLe (a b : String) : Bool :=
  charListLe a.data b.data

/-- The ordering relation used to model Python sorted on strings. -/
def StrLe (a b : String) : Prop :=
  strLe a b = true

instance : DecidableRel StrLe := fun a b => by
  unfold StrLe; infer_instance

/-- All retained tokens of a catalog, with per-record multiplicity, in
catalog order. -/
def allTokens (catalog_data : Catalog) : List String :=
  ((catalog_data.map recordTokens).flatten).filter keepToken

/-- Model of extract_catalog_keywords: accumulate the retained tokens of
every record into a set and render the set sorted ascending.  The set plus
Python sorted is modelled as dedup plus insertion sort, which yields the same
list (the sorted duplicate-free enumeration of the accumulated tokens). -/
def extract_catalog_keywords (catalog_data : Catalog) : List String :=
  List.insertionSort StrLe (allTokens catalog_data).dedup

/-- Outcome of the one network fetch attempted by fetch_gee_catalog, as seen
after requests.get, raise_for_status and response.json: either an exception
from the requests layer (timeout, connection error, non-success status), a
JSON decoding failure, or a parsed document.  A parsed document is a top-level
list of records, a top-level dict (carrying the list under its datasets key
when that key holds a list, and nothing otherwise), or some other JSON value. -/
inductive FetchDoc where
  | reqError
  | jsonError
  | docList (c : Catalog)
  | docDict (datasets : Option Catalog)
  | docOther
deriving DecidableEq

/-- The module-level mutable globals CATALOG_CACHE and CATALOG_KEYWORDS_CACHE
(None modelled as none). -/
structure AgentState where
  catalogCache : Option Catalog
  keywordsCache : Option (List String)
deriving DecidableEq

/-- The state at process start: both caches are None. -/
def initState : AgentState :=
  ⟨none, none⟩

/-- Model of fetch_gee_catalog: if the cache holds a value, return it without
touching the network; otherwise attempt the fetch, whose outcome is the doc
argument.  A requests exception or a JSON decoding failure returns the empty
list from inside the handler, leaving both caches untouched.  A parsed
document of an unexpected shape overwrites CATALOG_CACHE with the empty list
(and the keyword cache with the keywords of the empty list) before the final
return of CATALOG_CACHE.  A list-shaped document (directly, or nested under
the datasets key of a dict) is cached together with its extracted keywords
and returned. -/
def fetch_gee_catalog (st : AgentState) (doc : FetchDoc) : Catalog × AgentState :=
  match st.catalogCache with
  | some c => (c, st)
  | none =>
    match doc with
    | .reqError => ([], st)
    | .jsonError => ([], st)
    | .docList c => (c, ⟨some c, some (extract_catalog_keywords c)⟩)
    | .docDict (some c) => (c, ⟨some c, some (extract_catalog_keywords c)⟩)
    | .docDict none => ([], ⟨some [], some (extract_catalog_keywords [])⟩)
    | .docOther => ([], ⟨some [], some (extract_catalog_keywords [])⟩)

/-- One element of the Python list passed as matched_keywords: a string or a
value of some other type. -/
inductive KwElem where
  | str (s : String)
  | nonStr
deriving DecidableEq

/-- The matched_keywords argument itself: a Python list, or a value of some
other type (None, a number, a string, a dict, ...). -/
inductive KwArg where
  | notList
  | list (xs : List KwElem)
deriving DecidableEq

/-- Helper extracting the strings of a keyword-element list, provided every
element is a string. -/
def asStrs : List KwElem → Option (List String)
  | [] => some []
  | KwElem.str s :: rest => (asStrs rest).map (fun l => s :: l)
  | KwElem.nonStr :: _ => none

/-- The validation on matched_keywords performed by search_gee_catalog
(truthy, a list, and all elements strings): some strings when the argument
passes, none when it fails. -/
def keywordStrs : KwArg → Option (List String)
  | KwArg.notList => none
  | KwArg.list [] => none
  | KwArg.list (e :: es) => asStrs (e :: es)

/-- One element of the list returned by search_gee_catalog: a dict carrying
an error key, a dict carrying an info key, or a result summary dict with its
id, title and url keys. -/
inductive SearchEntry where
  | errorMarker (msg : String)
  | infoMarker (msg : String)
  | summary (id title url : String)
deriving DecidableEq

/-- The info message built when no dataset matches, which embeds the comma
join of the lowercased search terms. -/
def noDatasetsMsg (terms : List String) : String :=
  "No datasets found matching the provided keywords: " ++ String.intercalate ", " terms

/-- A record is a candidate match when some search term occurs as a substring
of its lowercased title or its lowercased description. -/
def matchesRecord (terms : List String) (item : CatalogRecord) : Bool :=
  terms.any (fun t =>
    containsSub t.data (lowerStr item.title).data ||
    containsSub t.data (lowerStr item.description).data)

/-- The inclusion test applied to a candidate match: id, title and url all
truthy (non-empty) and the id not yet in processed_ids. -/
def qualifies (item : CatalogRecord) (seen : List String) : Bool :=
  decide (item.id ≠ "") && decide (item.title ≠ "") &&
    decide (item.sample_code_url ≠ "") && decide (item.id ∉ seen)

/-- The summary dict appended for an included record. -/
def toSummary (item : CatalogRecord) : SearchEntry :=
  SearchEntry.summary item.id item.title item.sample_code_url

/-- The scanning loop of search_gee_catalog: walk the catalog in order,
carrying the results accumulated so far and the processed_ids set (as a
list); append a summary for each qualifying candidate match and return
immediately once the result list has reached 5 elements. -/
def searchLoop (terms : List String) : Catalog → List SearchEntry → List String → List SearchEntry
  | [], results, _ => results
  | item :: rest, results, seen =>
    if matchesRecord terms item then
      if qualifies item seen then
        if 5 ≤ (results ++ [toSummary item]).length then results ++ [toSummary item]
        else searchLoop terms rest (results ++ [toSummary item]) (item.id :: seen)
      else searchLoop terms rest results seen
    else searchLoop terms rest results seen

/-- Model of search_gee_catalog, taking the already-fetched catalog as an
argument: an empty catalog reports the catalog as unavailable; an invalid
matched_keywords argument reports that no valid keywords were provided; the
scan then runs over the lowercased keywords, and an empty accumulation is
reported through the no-datasets info marker. -/
def search_gee_catalog (catalog : Catalog) (matched_keywords : KwArg) : List SearchEntry :=
  if catalog.isEmpty then [SearchEntry.errorMarker "Catalog unavailable"]
  else
    match keywordStrs matched_keywords with
    | none => [SearchEntry.infoMarker "No valid keywords were provided for searching the catalog."]
    | some kws =>
      if (searchLoop (kws.map lowerStr) catalog [] []).isEmpty then
        [SearchEntry.infoMarker (noDatasetsMsg (kws.map lowerStr))]
      else searchLoop (kws.map lowerStr) catalog [] []

/-- Reference scan written from the claim on inclusion: a candidate match is
included iff its id, title and url are non-empty and its id was not included
before; no bound on the number of results. -/
def refSearch (terms : List String) : Catalog → List String → List SearchEntry
  | [], _ => []
  | item :: rest, seen =>
    if matchesRecord terms item && qualifies item seen then
      toSummary item :: refSearch terms rest (item.id :: seen)
    else refSearch terms rest seen

/-- Reference scan ignoring candidate matching (every record a candidate):
include each record with non-empty id, title and url whose id is new. -/
def dedupQualifying : Catalog → List String → List SearchEntry
  | [], _ => []
  | item :: rest, seen =>
    if qualifies item seen then toSummary item :: dedupQualifying rest (item.id :: seen)
    else dedupQualifying rest seen

/-- Reading of the claim on the empty keyword: the first up-to-5 records of
the catalog whose id, title and url are all non-empty, with no dedup. -/
def firstQualifying (catalog : Catalog) : List SearchEntry :=
  ((catalog.filter (fun r =>
    decide (r.id ≠ "") && decide (r.title ≠ "") &&
      decide (r.sample_code_url ≠ ""))).take 5).map toSummary

/-- The ids carried by the summary entries of a search result, in order. -/
def summaryIds (es : List SearchEntry) : List String :=
  es.filterMap (fun e =>
    match e with
    | SearchEntry.summary i _ _ => some i
    | _ => none)

/-- Outcome of the network interaction of fetch_webpage_text, as seen after
requests.get and raise_for_status: the body text on success, a requests
exception (carrying its rendered message), or any other exception. -/
inductive WebOutcome where
  | success (body : String)
  | reqError (msg : String)
  | otherError
deriving DecidableEq

/-- Model of fetch_webpage_text: the returned pair is (whether a network
request was issued, the returned string).  A missing/empty URL or one lacking
both accepted schemes returns the invalid-URL error without any request;
otherwise the request is issued and its outcome rendered as in the source. -/
def fetch_webpage_text (url : String) (outcome : WebOutcome) : Bool × String :=
  if url = "" ∨ ¬(matchesFront "http://".data url.data = true ∨ matchesFront "https://".data url.data = true) then
    (false, "Error: Invalid or missing URL.")
  else
    (true,
      match outcome with
      | WebOutcome.success body => body
      | WebOutcome.reqError msg =>
          "Error: Could not fetch content from " ++ url ++ ". Reason: " ++ msg
      | WebOutcome.otherError =>
          "Error: An unexpected error occurred while fetching " ++ url ++ ".")

/-- Spec-side tokenization for the keyword-extraction claim: the maximal runs
of ASCII letters and digits of the lowercased joined record text, as
strings. -/
def specAlnumTokens (item : CatalogRecord) : List String :=
  (charRuns isAsciiAlnum (lowerStr (recordText item)).data).map (fun r => String.mk r)

/-! Helper lemmas. -/

theorem charListLe_total : ∀ as bs, charListLe as bs = true ∨ charListLe bs as = true
  | [], bs => Or.inl (by cases bs <;> simp [charListLe])
  | a :: as, [] => Or.inr (by simp [charListLe])
  | a :: as, b :: bs => by
    simp only [charListLe]
    rcases Nat.lt_trichotomy a.toNat b.toNat with h | h | h
    · left; simp [h]
    · have h1 : ¬ a.toNat < b.toNat := by omega
      have h2 : ¬ b.toNat < a.toNat := by omega
      simpa [h1, h2] using charListLe_total as bs
    · right; simp [h, show ¬ a.toNat < b.toNat by omega]

theorem charListLe_trans : ∀ as bs cs, charListLe as bs = true →
    charListLe bs cs = true → charListLe as cs = true
  | [], bs, cs, _, _ => by cases cs <;> simp [charListLe]
  | a :: as, [], cs, h1, _ => by simp [charListLe] at h1
  | a :: as, b :: bs, [], _, h2 => by simp [charListLe] at h2
  | a :: as, b :: bs, c :: cs, h1, h2 => by
    simp only [charListLe] at h1 h2 ⊢
    rcases Nat.lt_trichotomy a.toNat b.toNat with hab | hab | hab
    · rcases Nat.lt_trichotomy b.toNat c.toNat with hbc | hbc | hbc
      · simp [show a.toNat < c.toNat by omega]
      · simp [show a.toNat < c.toNat by omega]
      · simp [show ¬ b.toNat < c.toNat by omega, show c.toNat < b.toNat from hbc] at h2
    · rcases Nat.lt_trichotomy b.toNat c.toNat with hbc | hbc | hbc
      · simp [show a.toNat < c.toNat by omega]
      · have e1 : ¬ a.toNat < b.toNat := by omega
        have e2 : ¬ b.toNat < a.toNat := by omega
        have e3 : ¬ b.toNat < c.toNat := by omega
        have e4 : ¬ c.toNat < b.toNat := by omega
        simp only [e1, e2, if_false, if_true] at h1
        simp only [e3, e4, if_false, if_true] at h2
        simp only [show ¬ a.toNat < c.toNat by omega, show ¬ c.toNat < a.toNat by omega,
          if_false, if_true]
        exact charListLe_trans as bs cs (by simpa using h1) (by simpa using h2)
      · simp [show ¬ b.toNat < c.toNat by omega, show c.toNat < b.toNat from hbc] at h2
    · simp [show ¬ a.toNat < b.toNat by omega, show b.toNat < a.toNat from hab] at h1

instance : IsTotal String StrLe :=
  ⟨fun a b => charListLe_total a.data b.data⟩

instance : IsTrans String StrLe :=
  ⟨fun a b c h1 h2 => charListLe_trans a.data b.data c.data h1 h2⟩

theorem containsSub_nil : ∀ l : List Char, containsSub [] l = true
  | [] => rfl
  | _ :: cs => by simp [containsSub, matchesFront, containsSub_nil cs]

theorem searchLoop_eq_refSearch (terms : List String) :
    ∀ (catalog : Catalog) (results : List SearchEntry) (seen : List String),
      results.length < 5 →
      searchLoop terms catalog results seen =
        results ++ (refSearch terms catalog seen).take (5 - results.length)
  | [], results, seen, _ => by simp [searchLoop, refSearch]
  | item :: rest, results, seen, h => by
    by_cases hm : matchesRecord terms item = true
    · by_cases hq : qualifies item seen = true
      · have hlen : (results ++ [toSummary item]).length = results.length + 1 := by simp
        simp only [searchLoop, refSearch, hm, hq, Bool.and_self, if_true]
        by_cases h5 : 5 ≤ (results ++ [toSummary item]).length
        · rw [if_pos h5]
          rw [hlen] at h5
          rw [show 5 - results.length = 0 + 1 by omega]
          simp [List.take_succ_cons]
        · rw [if_neg h5]
          rw [hlen] at h5
          rw [searchLoop_eq_refSearch terms rest (results ++ [toSummary item])
            (item.id :: seen) (by rw [hlen]; omega)]
          rw [hlen, show 5 - results.length = (5 - (results.length + 1)) + 1 by omega]
          simp [List.take_succ_cons]
      · rw [Bool.not_eq_true] at hq
        simp only [searchLoop, refSearch, hm, hq, Bool.and_false, if_true, if_false]
        exact searchLoop_eq_refSearch terms rest results seen h
    · rw [Bool.not_eq_true] at hm
      simp only [searchLoop, refSearch, hm, Bool.false_and, if_false]
      exact searchLoop_eq_refSearch terms rest results seen h

theorem searchLoop_stop (terms : List String) :
    ∀ (c1 c2 : Catalog) (results : List SearchEntry) (seen : List String),
      results.length < 5 → 5 ≤ (searchLoop terms c1 results seen).length →
      searchLoop terms (c1 ++ c2) results seen = searchLoop terms c1 results seen
  | [], _, results, seen, h, h5 => by
    simp only [searchLoop] at h5
    exact absurd h5 (by omega)
  | item :: c1, c2, results, seen, h, h5 => by
    by_cases hm : matchesRecord terms item = true
    · by_cases hq : qualifies item seen = true
      · simp only [searchLoop, hm, hq, if_true] at h5
        simp only [List.cons_append, searchLoop, hm, hq, if_true]
        by_cases hfull : 5 ≤ (results ++ [toSummary item]).length
        · simp only [if_pos hfull]
        · simp only [if_neg hfull] at h5 ⊢
          have hl : (results ++ [toSummary item]).length < 5 := by
            simp only [List.length_append, List.length_cons, List.length_nil] at hfull ⊢
            omega
          exact searchLoop_stop terms c1 c2 (results ++ [toSummary item]) (item.id :: seen) hl h5
      · rw [Bool.not_eq_true] at hq
        simp only [searchLoop, hm, hq, if_true, if_false] at h5
        simp only [List.cons_append, searchLoop, hm, hq, if_true, if_false]
        exact searchLoop_stop terms c1 c2 results seen h h5
    · rw [Bool.not_eq_true] at hm
      simp only [searchLoop, hm, if_false] at h5
      simp only [List.cons_append, searchLoop, hm, if_false]
      exact searchLoop_stop terms c1 c2 results seen h h5

theorem refSearch_sublist (terms : List String) :
    ∀ (catalog : Catalog) (seen : List String),
      ∃ l, List.Sublist l catalog ∧ refSearch terms catalog seen = l.map toSummary
  | [], _ => ⟨[], List.Sublist.refl [], rfl⟩
  | item :: rest, seen => by
    by_cases hc : (matchesRecord terms item && qualifies item seen) = true
    · obtain ⟨l, hl, he⟩ := refSearch_sublist terms rest (item.id :: seen)
      exact ⟨item :: l, List.Sublist.cons₂ item hl, by simp [refSearch, hc, he]⟩
    · obtain ⟨l, hl, he⟩ := refSearch_sublist terms rest seen
      exact ⟨l, List.Sublist.cons item hl, by simp [refSearch, hc, he]⟩

theorem summaryIds_cons_summary (i t u : String) (es : List SearchEntry) :
    summaryIds (SearchEntry.summary i t u :: es) = i :: summaryIds es := by
  simp [summaryIds]

theorem qualifies_eq_true (item : CatalogRecord) (seen : List String) :
    qualifies item seen = true ↔
      item.id ≠ "" ∧ item.title ≠ "" ∧ item.sample_code_url ≠ "" ∧ item.id ∉ seen := by
  simp [qualifies, and_assoc]

theorem refSearch_nodup (terms : List String) :
    ∀ (catalog : Catalog) (seen : List String),
      (summaryIds (refSearch terms catalog seen)).Nodup ∧
        ∀ i ∈ summaryIds (refSearch terms catalog seen), i ∉ seen
  | [], seen => by simp [refSearch, summaryIds]
  | item :: rest, seen => by
    by_cases hc : (matchesRecord terms item && qualifies item seen) = true
    · obtain ⟨hnd, hni⟩ := refSearch_nodup terms rest (item.id :: seen)
      have hq : qualifies item seen = true := (Bool.and_eq_true _ _).mp hc |>.2
      have hseen : item.id ∉ seen := ((qualifies_eq_true item seen).mp hq).2.2.2
      have hid : item.id ∉ summaryIds (refSearch terms rest (item.id :: seen)) :=
        fun hmem => (hni item.id hmem) (List.mem_cons_self _ _)
      constructor
      · simp only [refSearch, hc, if_true, toSummary, summaryIds_cons_summary]
        exact List.nodup_cons.mpr ⟨hid, hnd⟩
      · simp only [refSearch, hc, if_true, toSummary, summaryIds_cons_summary]
        intro i hi
        rcases List.mem_cons.mp hi with hi | hi
        · exact hi ▸ hseen
        · exact fun hin => (hni i hi) (List.mem_cons_of_mem _ hin)
    · obtain ⟨hnd, hni⟩ := refSearch_nodup terms rest seen
      constructor
      · simpa only [refSearch, hc, if_false] using hnd
      · simpa only [refSearch, hc, if_false] using hni

theorem refSearch_of_empty_mem (terms : List String) (h : "" ∈ terms) :
    ∀ (catalog : Catalog) (seen : List String),
      refSearch terms catalog seen = dedupQualifying catalog seen
  | [], _ => rfl
  | item :: rest, seen => by
    have hm : matchesRecord terms item = true := by
      simp only [matchesRecord, List.any_eq_true]
      exact ⟨"", h, by simp [containsSub_nil]⟩
    by_cases hq : qualifies item seen = true
    · simp [refSearch, dedupQualifying, hm, hq,
        refSearch_of_empty_mem terms h rest (item.id :: seen)]
    · rw [Bool.not_eq_true] at hq
      simp [refSearch, dedupQualifying, hm, hq, refSearch_of_empty_mem terms h rest seen]

theorem matchesRecord_of_empty_mem (terms : List String) (h : "" ∈ terms)
    (item : CatalogRecord) : matchesRecord terms item = true := by
  simp only [matchesRecord, List.any_eq_true]
  exact ⟨"", h, by simp [containsSub_nil]⟩

theorem search_eq_of_valid (catalog : Catalog) (arg : KwArg) (kws : List String)
    (h1 : catalog ≠ []) (h2 : keywordStrs arg = some kws) :
    search_gee_catalog catalog arg =
      if (searchLoop (kws.map lowerStr) catalog [] []).isEmpty then
        [SearchEntry.infoMarker (noDatasetsMsg (kws.map lowerStr))]
      else searchLoop (kws.map lowerStr) catalog [] [] := by
  unfold search_gee_catalog
  rw [if_neg (by simpa [List.isEmpty_iff] using h1), h2]

theorem search_ne_nil (c : Catalog) (a : KwArg) : search_gee_catalog c a ≠ [] := by
  unfold search_gee_catalog
  by_cases hc : c.isEmpty
  · simp [hc]
  · rw [if_neg hc]
    cases hk : keywordStrs a with
    | none => simp
    | some kws =>
      by_cases hl : (searchLoop (kws.map lowerStr) c [] []).isEmpty
      · simp [hl]
      · simp only [hl, if_false]
        simpa [List.isEmpty_iff] using hl

theorem lowerChar_toNat_not_upper (c : Char) :
    ¬ (65 ≤ (lowerChar c).toNat ∧ (lowerChar c).toNat ≤ 90) := by
  unfold lowerChar
  split
  · next h =>
    obtain ⟨h1, h2⟩ := h
    generalize hgen : c.toNat = n at h1 h2
    interval_cases n <;> decide
  · next h => omega

theorem lowerChar_not_upper (c : Char) : isUpperAscii (lowerChar c) = false := by
  simp only [isUpperAscii, decide_eq_false_iff_not]
  exact lowerChar_toNat_not_upper c

theorem runsAux_congr (p q : Char → Bool) :
    ∀ (l acc : List Char), (∀ c ∈ l, p c = q c) → runsAux p l acc = runsAux q l acc
  | [], _, _ => rfl
  | c :: cs, acc, h => by
    have hc : p c = q c := h c (List.mem_cons_self c cs)
    have ht : ∀ x ∈ cs, p x = q x := fun x hx => h x (List.mem_cons_of_mem c hx)
    have ih1 := runsAux_congr p q cs (c :: acc) ht
    have ih2 := runsAux_congr p q cs [] ht
    simp only [runsAux]
    rw [hc]
    by_cases hq : q c = true
    · simp [hq, ih1]
    · rw [Bool.not_eq_true] at hq
      simp [hq, ih2]

theorem runsAux_mem (p : Char → Bool) :
    ∀ (l acc : List Char), (∀ c ∈ acc, p c = true) →
      ∀ r ∈ runsAux p l acc, ∀ c ∈ r, p c = true ∧ (c ∈ l ∨ c ∈ acc)
  | [], acc, hacc => by
    intro r hr c hc
    simp only [runsAux] at hr
    by_cases he : acc.isEmpty = true
    · simp [he] at hr
    · rw [if_neg he] at hr
      rcases List.mem_singleton.mp hr with rfl
      have hmem : c ∈ acc := List.mem_reverse.mp hc
      exact ⟨hacc c hmem, Or.inr hmem⟩
  | x :: xs, acc, hacc => by
    intro r hr c hc
    simp only [runsAux] at hr
    by_cases hp : p x = true
    · rw [if_pos hp] at hr
      have hacc2 : ∀ d ∈ x :: acc, p d = true := by
        intro d hd
        rcases List.mem_cons.mp hd with rfl | hd
        · exact hp
        · exact hacc d hd
      obtain ⟨h1, h2⟩ := runsAux_mem p xs (x :: acc) hacc2 r hr c hc
      refine ⟨h1, ?_⟩
      rcases h2 with h2 | h2
      · exact Or.inl (List.mem_cons_of_mem x h2)
      · rcases List.mem_cons.mp h2 with rfl | h2
        · exact Or.inl (List.mem_cons_self c xs)
        · exact Or.inr h2
    · rw [if_neg hp] at hr
      by_cases he : acc.isEmpty = true
      · rw [if_pos he] at hr
        obtain ⟨h1, h2⟩ := runsAux_mem p xs [] (by simp) r hr c hc
        rcases h2 with h2 | h2
        · exact ⟨h1, Or.inl (List.mem_cons_of_mem x h2)⟩
        · simp at h2
      · rw [if_neg he] at hr
        rcases List.mem_cons.mp hr with rfl | hr
        · have hmem : c ∈ acc := List.mem_reverse.mp hc
          exact ⟨hacc c hmem, Or.inr hmem⟩
        · obtain ⟨h1, h2⟩ := runsAux_mem p xs [] (by simp) r hr c hc
          rcases h2 with h2 | h2
          · exact ⟨h1, Or.inl (List.mem_cons_of_mem x h2)⟩
          · simp at h2

theorem findWordTokens_no_underscore (s : List Char)
    (h : ∀ c ∈ s, c ≠ '_') (hup : ∀ c ∈ s, isUpperAscii c = false) :
    findWordTokens s = charRuns isAsciiAlnum s := by
  unfold findWordTokens charRuns
  have hcongr : ∀ c ∈ s, isWordChar c = isAsciiAlnum c := by
    intro c hc
    have hne : (c == '_') = false := by
      simpa using h c hc
    simp [isWordChar, hne]
  rw [show runsAux isWordChar s [] = runsAux isAsciiAlnum s [] from
    runsAux_congr isWordChar isAsciiAlnum s [] hcongr]
  apply List.filter_eq_self.mpr
  intro r hr
  rw [List.all_eq_true]
  intro c hc
  obtain ⟨h1, h2⟩ := runsAux_mem isAsciiAlnum s [] (by simp) r hr c hc
  rcases h2 with h2 | h2
  · have hupc := hup c h2
    simp only [isAsciiAlnum, Bool.or_eq_true] at h1
    rcases h1 with h1 | h1
    · exact h1
    · rw [hupc] at h1
      exact absurd h1 (by simp)
  · simp at h2

theorem lowerStr_no_upper (s : String) :
    ∀ c ∈ (lowerStr s).data, isUpperAscii c = false := by
  intro c hc
  simp only [lowerStr, List.mem_map] at hc
  obtain ⟨c0, _, rfl⟩ := hc
  exact lowerChar_not_upper c0

theorem search_eq_take_refSearch (catalog : Catalog) (arg : KwArg) (kws : List String)
    (h1 : catalog ≠ []) (h2 : keywordStrs arg = some kws) :
    search_gee_catalog catalog arg =
      if refSearch (kws.map lowerStr) catalog [] = [] then
        [SearchEntry.infoMarker (noDatasetsMsg (kws.map lowerStr))]
      else (refSearch (kws.map lowerStr) catalog []).take 5 := by
  have hloop : searchLoop (kws.map lowerStr) catalog [] [] =
      (refSearch (kws.map lowerStr) catalog []).take 5 := by
    simpa using searchLoop_eq_refSearch (kws.map lowerStr) catalog [] [] (by norm_num)
  rw [search_eq_of_valid catalog arg kws h1 h2, hloop]
  by_cases he : refSearch (kws.map lowerStr) catalog [] = []
  · rw [if_pos (by simp [he]), if_pos he]
  · have hne : ¬ ((refSearch (kws.map lowerStr) catalog []).take 5).isEmpty = true := by
      intro hc
      rcases List.take_eq_nil_iff.mp (List.isEmpty_iff.mp hc) with h | h
      · exact absurd h (by norm_num)
      · exact he h
    rw [if_neg hne, if_neg he]

/-- Sample record used by the spec scenarios: all fields present and
non-empty. -/
def recA : CatalogRecord :=
  ⟨"A", "MODIS Vegetation Index", "NDVI data", "http://x/a"⟩

/-- A catalog whose six records all match the keyword data, with pairwise
distinct ids and non-empty fields throughout. -/
def cat6 : Catalog :=
  [⟨"d1", "data one", "", "u"⟩, ⟨"d2", "data two", "", "u"⟩, ⟨"d3", "data three", "", "u"⟩,
   ⟨"d4", "data four", "", "u"⟩, ⟨"d5", "data five", "", "u"⟩, ⟨"d6", "data six", "", "u"⟩]

/-- A catalog with two records sharing one id, both with non-empty id, title
and url. -/
def catDup : Catalog :=
  [⟨"x", "T", "", "u"⟩, ⟨"x", "T2", "", "u2"⟩]

/-- A record whose title joins two alphanumeric runs with an underscore. -/
def recUnderscore : CatalogRecord :=
  ⟨"", "foo_bar", "", ""⟩

/-! Claim theorems. -/

/-- C7: against any keyword argument whatsoever, valid or invalid, search on
the empty catalog (the state left by a failed fetch) returns exactly the
single-element catalog-unavailable error marker. -/
theorem search_empty_catalog_unavailable (arg : KwArg) :
    search_gee_catalog [] arg = [SearchEntry.errorMarker "Catalog unavailable"] :=
  rfl

/-- C9: fetch_webpage_text returns the invalid-URL error string with no
network request exactly when the URL (empty included) starts with neither
http:// nor https://; when it has one of the two schemes, a network request
is issued. -/
theorem fetch_webpage_guard (url : String) (outcome : WebOutcome) :
    (¬ (matchesFront "http://".data url.data = true ∨
        matchesFront "https://".data url.data = true) →
      fetch_webpage_text url outcome = (false, "Error: Invalid or missing URL.")) ∧
    ((matchesFront "http://".data url.data = true ∨
        matchesFront "https://".data url.data = true) →
      (fetch_webpage_text url outcome).1 = true) := by
  constructor
  · intro h
    unfold fetch_webpage_text
    rw [if_pos (Or.inr h)]
  · intro h
    have hcond : ¬ (url = "" ∨
        ¬ (matchesFront "http://".data url.data = true ∨
           matchesFront "https://".data url.data = true)) := by
      rintro (he | hn)
      · subst he
        rcases h with h | h <;> exact absurd h (by decide)
      · exact hn h
    unfold fetch_webpage_text
    rw [if_neg hcond]

/-- C9 witness: the scenario URL ftp://x takes the fail-fast branch, and an
https URL issues the request. -/
theorem fetch_webpage_guard_witness :
    fetch_webpage_text "ftp://x" WebOutcome.otherError =
      (false, "Error: Invalid or missing URL.") ∧
    (fetch_webpage_text "https://x" WebOutcome.otherError).1 = true :=
  ⟨(fetch_webpage_guard "ftp://x" WebOutcome.otherError).1 (by decide),
   (fetch_webpage_guard "https://x" WebOutcome.otherError).2 (by decide)⟩

/-- C6 counterexample: with the empty catalog and an invalid (empty) keyword
list, search returns the catalog-unavailable error marker, not the no-valid-
keywords info marker, because the catalog check runs first; the claim's
clause that the marker comes back regardless of catalog contents fails. -/
theorem search_invalid_keywords_cex :
    search_gee_catalog [] (KwArg.list []) =
      [SearchEntry.errorMarker "Catalog unavailable"] ∧
    search_gee_catalog [] (KwArg.list []) ≠
      [SearchEntry.infoMarker "No valid keywords were provided for searching the catalog."] := by
  decide

/-- C6 amended: for every NON-EMPTY catalog, a matched_keywords argument that
is not a list, or an empty list, or a list containing a non-string, makes
search return exactly the single-element no-valid-keywords info marker (on
the empty catalog the catalog-unavailable marker wins instead). -/
theorem search_invalid_keywords (catalog : Catalog) (arg : KwArg)
    (h1 : catalog ≠ []) (h2 : keywordStrs arg = none) :
    search_gee_catalog catalog arg =
      [SearchEntry.infoMarker "No valid keywords were provided for searching the catalog."] := by
  unfold search_gee_catalog
  rw [if_neg (by simpa [List.isEmpty_iff] using h1), h2]

/-- C6 amended, witness at a concrete non-empty catalog and empty list. -/
theorem search_invalid_keywords_witness :
    search_gee_catalog [recA] (KwArg.list []) =
      [SearchEntry.infoMarker "No valid keywords were provided for searching the catalog."] :=
  search_invalid_keywords [recA] (KwArg.list []) (by decide) (by decide)

/-- C5 counterexample: a shape failure (valid JSON that is neither a list
nor a dict with a datasets list) does poison the cache: it stores the empty
catalog, and a subsequent call returns the cached empty catalog even though
a well-shaped document would now be available, refuting the claim that no
failure is cached. -/
theorem fetch_shape_failure_cached_cex :
    (fetch_gee_catalog initState FetchDoc.docOther).1 = [] ∧
    (fetch_gee_catalog initState FetchDoc.docOther).2.catalogCache = some [] ∧
    (fetch_gee_catalog (fetch_gee_catalog initState FetchDoc.docOther).2
      (FetchDoc.docList [recA])).1 = [] := by
  decide

/-- C5 amended: with an unset cache, a transport failure and a JSON parse
failure return the empty catalog leaving the state unchanged, so that a
subsequent call with a well-shaped document succeeds; a shape failure
instead returns the empty catalog while caching it, and every subsequent
call then returns the cached empty catalog for any fetch outcome. -/
theorem fetch_failure_behavior (st : AgentState) (h : st.catalogCache = none) :
    fetch_gee_catalog st FetchDoc.reqError = ([], st) ∧
    fetch_gee_catalog st FetchDoc.jsonError = ([], st) ∧
    (∀ c : Catalog,
      (fetch_gee_catalog (fetch_gee_catalog st FetchDoc.reqError).2 (FetchDoc.docList c)).1 = c) ∧
    (fetch_gee_catalog st FetchDoc.docOther).1 = [] ∧
    (fetch_gee_catalog st FetchDoc.docOther).2.catalogCache = some [] ∧
    (fetch_gee_catalog st (FetchDoc.docDict none)).1 = [] ∧
    (fetch_gee_catalog st (FetchDoc.docDict none)).2.catalogCache = some [] ∧
    (∀ doc : FetchDoc,
      fetch_gee_catalog (fetch_gee_catalog st FetchDoc.docOther).2 doc =
        ([], (fetch_gee_catalog st FetchDoc.docOther).2)) := by
  obtain ⟨cache, kw⟩ := st
  simp only at h
  subst h
  exact ⟨rfl, rfl, fun c => rfl, rfl, rfl, rfl, rfl, fun doc => rfl⟩

/-- C5 amended, witness at the initial state. -/
theorem fetch_failure_behavior_witness :
    fetch_gee_catalog initState FetchDoc.reqError = ([], initState) ∧
    (fetch_gee_catalog initState FetchDoc.docOther).2.catalogCache = some [] :=
  ⟨(fetch_failure_behavior initState rfl).1,
   (fetch_failure_behavior initState rfl).2.2.2.2.1⟩

/-- C8: on a non-empty catalog with a valid keyword list, when the scan
accumulates nothing, search returns exactly the single-element no-datasets
info marker whose message embeds the lowercased keywords; moreover search
never returns the empty list on any input. -/
theorem search_no_match_marker (catalog : Catalog) (arg : KwArg) (kws : List String)
    (h1 : catalog ≠ []) (h2 : keywordStrs arg = some kws)
    (h3 : searchLoop (kws.map lowerStr) catalog [] [] = []) :
    search_gee_catalog catalog arg =
      [SearchEntry.infoMarker (noDatasetsMsg (kws.map lowerStr))] ∧
    ∀ (c : Catalog) (a : KwArg), search_gee_catalog c a ≠ [] := by
  refine ⟨?_, fun c a => search_ne_nil c a⟩
  rw [search_eq_of_valid catalog arg kws h1 h2, if_pos (by simp [h3])]

/-- C8 witness: the spec scenario searching the sample record for
precipitation. -/
theorem search_no_match_marker_witness :
    search_gee_catalog [recA] (KwArg.list [KwElem.str "precipitation"]) =
      [SearchEntry.infoMarker (noDatasetsMsg (["precipitation"].map lowerStr))] :=
  (search_no_match_marker [recA] (KwArg.list [KwElem.str "precipitation"])
    ["precipitation"] (by decide) (by decide) (by decide)).1

/-- C2: on a non-empty catalog with a valid keyword list, whenever the scan
accumulates at least one summary, the value search returns is the scan
accumulation, has at most 5 elements with pairwise distinct ids, maps a
sublist of the catalog through the summary constructor (catalog order of
first match), and once its length is 5 the scan of the catalog extended by
any further records returns the same value (records beyond the cap are never
considered). -/
theorem search_results_bounded (catalog : Catalog) (arg : KwArg) (kws : List String)
    (h1 : catalog ≠ []) (h2 : keywordStrs arg = some kws)
    (h3 : searchLoop (kws.map lowerStr) catalog [] [] ≠ []) :
    search_gee_catalog catalog arg = searchLoop (kws.map lowerStr) catalog [] [] ∧
    (search_gee_catalog catalog arg).length ≤ 5 ∧
    (summaryIds (search_gee_catalog catalog arg)).Nodup ∧
    (∃ l, List.Sublist l catalog ∧ search_gee_catalog catalog arg = l.map toSummary) ∧
    (∀ extra : Catalog, (search_gee_catalog catalog arg).length = 5 →
      searchLoop (kws.map lowerStr) (catalog ++ extra) [] [] =
        search_gee_catalog catalog arg) := by
  have hsearch : search_gee_catalog catalog arg = searchLoop (kws.map lowerStr) catalog [] [] := by
    rw [search_eq_of_valid catalog arg kws h1 h2,
      if_neg (by simpa [List.isEmpty_iff] using h3)]
  have hloop : searchLoop (kws.map lowerStr) catalog [] [] =
      (refSearch (kws.map lowerStr) catalog []).take 5 := by
    simpa using searchLoop_eq_refSearch (kws.map lowerStr) catalog [] [] (by norm_num)
  refine ⟨hsearch, ?_, ?_, ?_, ?_⟩
  · rw [hsearch, hloop]
    exact List.length_take_le 5 _
  · rw [hsearch, hloop]
    obtain ⟨hnd, _⟩ := refSearch_nodup (kws.map lowerStr) catalog []
    unfold summaryIds at hnd ⊢
    exact List.Nodup.sublist ((List.take_sublist 5 _).filterMap _) hnd
  · obtain ⟨l, hl, he⟩ := refSearch_sublist (kws.map lowerStr) catalog []
    refine ⟨l.take 5, List.Sublist.trans (List.take_sublist 5 l) hl, ?_⟩
    rw [hsearch, hloop, he]
    exact (List.map_take toSummary l 5).symm
  · intro extra hlen
    rw [hsearch] at hlen ⊢
    exact searchLoop_stop (kws.map lowerStr) catalog extra [] [] (by norm_num) (by omega)

/-- C2 witness: the sample record searched for ndvi. -/
theorem search_results_bounded_witness :
    search_gee_catalog [recA] (KwArg.list [KwElem.str "ndvi"]) =
      searchLoop (["ndvi"].map lowerStr) [recA] [] [] ∧
    (search_gee_catalog [recA] (KwArg.list [KwElem.str "ndvi"])).length ≤ 5 :=
  ⟨(search_results_bounded [recA] (KwArg.list [KwElem.str "ndvi"]) ["ndvi"]
      (by decide) (by decide) (by decide)).1,
   (search_results_bounded [recA] (KwArg.list [KwElem.str "ndvi"]) ["ndvi"]
      (by decide) (by decide) (by decide)).2.1⟩

/-- C1 counterexample: on a catalog of six candidate matches that all have
non-empty id, title and url and pairwise distinct ids, search includes only
the first five, while the claimed inclusion criterion (non-empty fields plus
unseen id, with no cap) admits all six; the claimed iff therefore fails for
the sixth record. -/
theorem search_inclusion_iff_cex :
    search_gee_catalog cat6 (KwArg.list [KwElem.str "data"]) ≠
      refSearch (["data"].map lowerStr) cat6 [] ∧
    (search_gee_catalog cat6 (KwArg.list [KwElem.str "data"])).length = 5 ∧
    (refSearch (["data"].map lowerStr) cat6 []).length = 6 := by
  decide

/-- C1 amended: on a non-empty catalog with a valid keyword list, search
returns the first FIVE elements of the reference sequence that includes a
candidate match (some lowercased keyword a substring of the lowercase title
or description) iff its id, title and url are non-empty and its id is
unseen, falling back to the no-datasets marker when that sequence is empty;
inclusion beyond the fifth accumulated result does not happen. -/
theorem search_inclusion_characterization (catalog : Catalog) (arg : KwArg)
    (kws : List String) (h1 : catalog ≠ []) (h2 : keywordStrs arg = some kws) :
    search_gee_catalog catalog arg =
      if refSearch (kws.map lowerStr) catalog [] = [] then
        [SearchEntry.infoMarker (noDatasetsMsg (kws.map lowerStr))]
      else (refSearch (kws.map lowerStr) catalog []).take 5 :=
  search_eq_take_refSearch catalog arg kws h1 h2

/-- C1 amended, witness: the spec scenario searching the sample record for
ndvi yields its summary. -/
theorem search_inclusion_characterization_witness :
    search_gee_catalog [recA] (KwArg.list [KwElem.str "ndvi"]) =
      if refSearch (["ndvi"].map lowerStr) [recA] [] = [] then
        [SearchEntry.infoMarker (noDatasetsMsg (["ndvi"].map lowerStr))]
      else (refSearch (["ndvi"].map lowerStr) [recA] []).take 5 :=
  search_inclusion_characterization [recA] (KwArg.list [KwElem.str "ndvi"]) ["ndvi"]
    (by decide) (by decide)

/-- C10 counterexample: with a keyword list containing the empty string and
a catalog of two records sharing one id, search returns a single summary
(dedup by id), while the claimed characterization, the first up-to-5 records
with non-empty id, title and url, contains both records. -/
theorem search_empty_keyword_cex :
    search_gee_catalog catDup (KwArg.list [KwElem.str ""]) ≠ firstQualifying catDup ∧
    search_gee_catalog catDup (KwArg.list [KwElem.str ""]) =
      [SearchEntry.summary "x" "T" "u"] ∧
    firstQualifying catDup =
      [SearchEntry.summary "x" "T" "u", SearchEntry.summary "x" "T2" "u2"] := by
  decide

/-- C10 amended: when the valid keyword list contains the empty string,
every record of the catalog is a candidate match, and search returns the
first up-to-5 records with non-empty id, title and url WHOSE ID IS NEW
(dedup by id, first occurrence winning), or the no-datasets marker when no
record qualifies. -/
theorem search_empty_keyword (catalog : Catalog) (arg : KwArg) (kws : List String)
    (h1 : catalog ≠ []) (h2 : keywordStrs arg = some kws) (h3 : "" ∈ kws) :
    (∀ item ∈ catalog, matchesRecord (kws.map lowerStr) item = true) ∧
    search_gee_catalog catalog arg =
      if dedupQualifying catalog [] = [] then
        [SearchEntry.infoMarker (noDatasetsMsg (kws.map lowerStr))]
      else (dedupQualifying catalog []).take 5 := by
  have hmem : "" ∈ kws.map lowerStr := by
    have hl : lowerStr "" = "" := rfl
    exact hl ▸ List.mem_map_of_mem lowerStr h3
  have href : refSearch (kws.map lowerStr) catalog [] = dedupQualifying catalog [] :=
    refSearch_of_empty_mem (kws.map lowerStr) hmem catalog []
  refine ⟨fun item _ => matchesRecord_of_empty_mem (kws.map lowerStr) hmem item, ?_⟩
  rw [search_eq_take_refSearch catalog arg kws h1 h2, href]

/-- C10 amended, witness on the duplicate-id catalog. -/
theorem search_empty_keyword_witness :
    search_gee_catalog catDup (KwArg.list [KwElem.str ""]) =
      if dedupQualifying catDup [] = [] then
        [SearchEntry.infoMarker (noDatasetsMsg ([""].map lowerStr))]
      else (dedupQualifying catDup []).take 5 :=
  (search_empty_keyword catDup (KwArg.list [KwElem.str ""]) [""]
    (by decide) (by decide) (by decide)).2

/-- C3 counterexample: on a record titled foo_bar the regex yields no token
at all, because the underscore is a word character and the word-boundary
assertions reject any alphanumeric run adjacent to it, whereas the claimed
extraction of maximal ASCII alphanumeric runs yields foo and bar. -/
theorem record_tokens_cex :
    recordTokens recUnderscore = [] ∧
    specAlnumTokens recUnderscore = ["foo", "bar"] ∧
    recordTokens recUnderscore ≠ specAlnumTokens recUnderscore := by
  decide

/-- C3 amended: the candidate tokens come from the space-join of the present
fields, lowercased, and are the maximal runs of ASCII letters and digits of
that text PROVIDED the text contains no underscore; an alphanumeric run
adjacent to an underscore is dropped by the word-boundary assertions of the
regex. -/
theorem record_tokens_no_underscore (item : CatalogRecord)
    (h : ∀ c ∈ (lowerStr (recordText item)).data, c ≠ '_') :
    recordTokens item = specAlnumTokens item := by
  unfold recordTokens specAlnumTokens
  rw [findWordTokens_no_underscore (lowerStr (recordText item)).data h
    (lowerStr_no_upper (recordText item))]

/-- C3 amended, witness on the sample record (whose text has no
underscore). -/
theorem record_tokens_no_underscore_witness :
    recordTokens recA = specAlnumTokens recA :=
  record_tokens_no_underscore recA (by decide)

/-- C4: for every catalog the extracted vocabulary is sorted ascending in
code-point lexicographic order with no duplicates, every token has length
above 2, consists of lowercase ASCII letters and digits only and is not
purely numeric, and the empty catalog yields the empty vocabulary. -/
theorem extract_keywords_props (catalog : Catalog) :
    List.Sorted StrLe (extract_catalog_keywords catalog) ∧
    (extract_catalog_keywords catalog).Nodup ∧
    (∀ t ∈ extract_catalog_keywords catalog,
      2 < t.length ∧ (∀ c ∈ t.data, isLowerAlnum c = true) ∧
        ¬ t.data.all isAsciiDigit = true) ∧
    extract_catalog_keywords ([] : Catalog) = [] := by
  refine ⟨List.sorted_insertionSort StrLe _, ?_, ?_, rfl⟩
  · exact (List.perm_insertionSort StrLe _).nodup_iff.mpr
      (List.nodup_dedup (allTokens catalog))
  · intro t ht
    have hmem : t ∈ allTokens catalog := by
      unfold extract_catalog_keywords at ht
      rw [List.mem_insertionSort, List.mem_dedup] at ht
      exact ht
    unfold allTokens at hmem
    rw [List.mem_filter] at hmem
    obtain ⟨hjoin, hkeep⟩ := hmem
    unfold keepToken at hkeep
    rw [Bool.and_eq_true, decide_eq_true_eq] at hkeep
    obtain ⟨hlen, hdig⟩ := hkeep
    refine ⟨hlen, ?_, ?_⟩
    · rw [List.mem_flatten] at hjoin
      obtain ⟨l, hl, htl⟩ := hjoin
      rw [List.mem_map] at hl
      obtain ⟨item, _, rfl⟩ := hl
      unfold recordTokens at htl
      rw [List.mem_map] at htl
      obtain ⟨r, hr, rfl⟩ := htl
      unfold findWordTokens at hr
      rw [List.mem_filter, List.all_eq_true] at hr
      intro c hc
      exact hr.2 c hc
    · intro hallDig
      rw [Bool.not_eq_true'] at hdig
      unfold pyIsDigit at hdig
      rw [hallDig, Bool.and_true, Bool.not_eq_false'] at hdig
      have hnil : t.data = [] := List.isEmpty_iff.mp hdig
      have hzero : t.length = 0 := by
        rw [String.length, hnil]
        rfl
      omega

/-- C4 witness: the sample record's vocabulary is sorted and contains the
token ndvi with the claimed properties. -/
theorem extract_keywords_props_witness :
    List.Sorted StrLe (extract_catalog_keywords [recA]) ∧
    (2 < ("ndvi" : String).length ∧
      (∀ c ∈ ("ndvi" : String).data, isLowerAlnum c = true) ∧
      ¬ ("ndvi" : String).data.all isAsciiDigit = true) :=
  ⟨(extract_keywords_props [recA]).1,
   (extract_keywords_props [recA]).2.2.1 "ndvi" (by decide)⟩

end GeeAgent
